import Mathlib

/-!
# Verification of the mcmodgetter dependency-resolution and download engine

Shallow embedding of `src/modrinth.rs`: the data model (`Project`, `Version`,
`ModrinthFile`, `RequiredDependency`, `Mod`), the file selector
(`search_for_primary_file`), the hash verifier (`Mod::verify_against`,
`verify_file`), the downloader (`Mod::download`) and the fixed-point
dependency resolver (`resolve_dependencies`).

Modelling conventions:
* The registry (Modrinth HTTP API) is a deterministic response function
  bundled in a `Registry` structure; `none` models a transport or parse
  failure.  The active `VersionQuery` filter is folded into the response
  functions (the source threads one fixed query value through every call).
* The filesystem and network are a `World`: a map from path to file state,
  a map from url to optional fetched bytes, and the SHA-512 digest function
  kept abstract as `digest : List Nat → List Nat` (bytes are `List Nat`).
* Rust `Result` becomes `Except`; `reqwest::Error` payloads carry no
  information the code inspects, so `BadRequest` is a bare constructor.
* `Vec` indexing `files[idx]` (which panics out of bounds) is modelled with
  `List.getD _ default`; theorem `C10` shows the index produced by
  `search_for_primary_file` is always in bounds, so the default is dead.
* File writes (`fs::File::create` + `write_all`) are modelled as always
  succeeding filesystem updates; no claim under verification concerns the
  write-failure (`PersistFailure`) path.
-/

namespace McModGetter

/-- Structure `ModrinthFileHash` from `modrinth.rs`: the hex-decoded SHA-512 digest. -/
structure ModrinthFileHash where
  sha512 : List Nat
deriving DecidableEq

/-- Structure `ModrinthFile`: url, filename, primary flag and content hash. -/
structure ModrinthFile where
  url : String
  filename : String
  primary : Bool
  hashes : ModrinthFileHash
deriving DecidableEq

instance : Inhabited ModrinthFile := ⟨⟨"", "", false, ⟨[]⟩⟩⟩

/-- Method `ModrinthFileHash::check512`: compare the stored digest with a computed one. -/
def ModrinthFileHash.check512 (h : ModrinthFileHash) (other_hash : List Nat) : Bool :=
  h.sha512 == other_hash

/-- Structure `RequiredDependency`: a required dependency edge, by version id or project id. -/
structure RequiredDependency where
  version_id : Option String
  project_id : Option String
deriving DecidableEq

/-- Structure `Version`: one release of a project. -/
structure Version where
  id : String
  project_id : String
  name : String
  version_number : String
  files : List ModrinthFile
  dependencies : List RequiredDependency
deriving DecidableEq

/-- Structure `Project`: a registry package. -/
structure Project where
  id : String
  title : String
  description : String
deriving DecidableEq

/-- Structure `Mod`: the fully materialized unit to be downloaded (a ResolvedEntry). -/
structure Mod where
  title : String
  project_id : String
  version_name : String
  version_id : String
  file : ModrinthFile
  dependencies : List RequiredDependency
deriving DecidableEq

/-- Enum `ModError` from `modrinth.rs` (`BadRequest` carries an opaque transport error). -/
inductive ModError where
  | NoFile (msg : String)
  | BadRequest
  | NoVersion (msg : String)
  | NoDependency (msg : String)
deriving DecidableEq

/-- Enum `DownloadError` from `modrinth.rs`. -/
inductive DownloadError where
  | BadRequest
  | BadFile
  | BadHash (msg : String)
deriving DecidableEq

/-- Enum `FileVerification` from `modrinth.rs`. -/
inductive FileVerification where
  | Ok
  | NotExists
  | BadHash
  | BadFile
deriving DecidableEq

/-- The registry as a deterministic response function (spec section 4.1):
`getProject` is `GET /v2/project/{id}`, `getVersions` is
`GET /v2/project/{id}/version?query` under the invocation's fixed filter,
`getVersionById` is `GET /v2/version/{id}`.  `none` is a transport/parse
failure. -/
structure Registry where
  getProject : String → Option Project
  getVersions : String → Option (List Version)
  getVersionById : String → Option Version

/-- Registry well-formedness (spec section 3: a `Project`'s `id` "identifies a
package in the registry"): looking up a project id returns the project bearing
that id. -/
def Registry.Coherent (reg : Registry) : Prop :=
  ∀ p proj, reg.getProject p = some proj → proj.id = p

/-- The registry draws every version it can return from a finite project set
`P` (spec: "the registry's total project count is finite"). -/
def Registry.ProjectsIn (reg : Registry) (P : List String) : Prop :=
  (∀ vid v, reg.getVersionById vid = some v → v.project_id ∈ P) ∧
  (∀ pid vs, reg.getVersions pid = some vs → ∀ v ∈ vs, v.project_id ∈ P)

/-- Function `get_top_version`: fetch the version list and take element 0, or report
`NoVersion` when the list is empty (`BadRequest` on transport failure). -/
def getTopVersion (reg : Registry) (project_id : String) : Except ModError Version :=
  match reg.getVersions project_id with
  | none => .error .BadRequest
  | some response =>
    match response.head? with
    | some v => .ok v
    | none => .error (.NoVersion ("No version found for id " ++ project_id))

/-- Method `RequiredDependency::resolve_to_version`: by `version_id` if set, else by
`project_id`, else the `NoDependency` error. -/
def RequiredDependency.resolve_to_version (d : RequiredDependency) (reg : Registry) :
    Except ModError Version :=
  match d.version_id with
  | some v =>
    match reg.getVersionById v with
    | some ver => .ok ver
    | none => .error .BadRequest
  | none =>
    match d.project_id with
    | some p => getTopVersion reg p
    | none => .error (.NoDependency "Could not resolve dependency")

/-- The inner loop of `search_for_primary_file`: first index (counting from
`i`) whose file has `primary` set. -/
def findPrimaryIdx : List ModrinthFile → Nat → Option Nat
  | [], _ => none
  | f :: rest, i => if f.primary then some i else findPrimaryIdx rest (i + 1)

/-- Function `search_for_primary_file`: `none` on the empty list, else the first
`primary` file's index, else index 0. -/
def search_for_primary_file (files : List ModrinthFile) : Option Nat :=
  if files.length = 0 then none
  else
    match findPrimaryIdx files 0 with
    | some i => some i
    | none => some 0

/-- Method `Mod::build`: join a project, a version and the selected file index.  The
source indexes `ver.files()[primary_file_idx]`, which panics out of bounds;
modelled with `getD` whose default is shown unreachable by theorem `C10`. -/
def Mod.build (proj : Project) (ver : Version) (primary_file_idx : Nat) : Mod :=
  { title := proj.title
    project_id := proj.id
    version_name := ver.name
    version_id := ver.id
    file := ver.files.getD primary_file_idx default
    dependencies := ver.dependencies }

/-- Method `Mod::build_from_version`: fetch the project of the version, select the
primary file, build the `Mod`. -/
def Mod.build_from_version (reg : Registry) (ver : Version) : Except ModError Mod :=
  match reg.getProject ver.project_id with
  | none => .error .BadRequest
  | some proj =>
    match search_for_primary_file ver.files with
    | none => .error (.NoFile ("Could not find file for project " ++ proj.title))
    | some idx => .ok (Mod.build proj ver idx)

/-- Function `file_from_ver`: the selected primary file of a version (`v_files[idx]`
modelled with `getD` as in `Mod.build`). -/
def file_from_ver (v : Version) : Option ModrinthFile :=
  match search_for_primary_file v.files with
  | some idx => some (v.files.getD idx default)
  | none => none

/-- The projectIds of a resolved list. -/
def pids (mods : List Mod) : List String :=
  mods.map Mod.project_id

/-- The union of `dependencies` over the current resolved list, as collected
by the first loop of `resolve_dependencies`. -/
def depsToSearch (mods : List Mod) : List RequiredDependency :=
  mods.flatMap Mod.dependencies

/-- The second loop of `resolve_dependencies`: walk the awaited resolution
results in order; for each `Ok` version whose projectId is not yet present
(`mods.iter().any(|m| m == ver.project_id())`), try to build a `Mod` and push
it, counting `new_deps`.  Returns the grown list and the `new_deps` count. -/
def passPush (reg : Registry) (mods : List Mod) :
    List (Except ModError Version) → List Mod × Nat
  | [] => (mods, 0)
  | vr :: rest =>
    match vr with
    | .ok ver =>
      if mods.any (fun m => m.project_id == ver.project_id) then
        passPush reg mods rest
      else
        match Mod.build_from_version reg ver with
        | .ok m =>
          let p := passPush reg (mods ++ [m]) rest
          (p.1, p.2 + 1)
        | .error _ => passPush reg mods rest
    | .error _ => passPush reg mods rest

/-- One pass of `resolve_dependencies`: resolve every collected dependency
(the awaited `join_all`), then push the new mods. -/
def onePass (reg : Registry) (mods : List Mod) : List Mod × Nat :=
  passPush reg mods ((depsToSearch mods).map (fun d => d.resolve_to_version reg))

/-- Function `resolve_dependencies`: repeat passes while `new_deps > 0`.  The source
recurses on itself; the embedding adds explicit fuel, `none` meaning the
fuel was exhausted before the fixed point (the termination theorem `C4`
shows enough fuel always exists for a finite registry). -/
def resolve_dependencies (reg : Registry) : Nat → List Mod → Option (List Mod)
  | 0, _ => none
  | fuel + 1, mods =>
    let p := onePass reg mods
    if p.2 > 0 then resolve_dependencies reg fuel p.1 else some p.1

/-! ## Filesystem and network model -/

/-- State of one path on disk: absent, present but unreadable (an I/O error
from `fs::read`), or present with readable bytes. -/
inductive FileState where
  | absent
  | unreadable
  | readable (bytes : List Nat)
deriving DecidableEq

/-- The ambient world of one download invocation: the filesystem, the network
(`none` is a transport error), and the SHA-512 digest function kept abstract
(the claims use no property of SHA-512 beyond it being a function of the
bytes). -/
structure World where
  fs : String → FileState
  net : String → Option (List Nat)
  digest : List Nat → List Nat

/-- Model of `out_dir.join(filename)`. -/
def pathJoin (dir file : String) : String := dir ++ "/" ++ file

/-- Method `Mod::verify_against`: `NotExists` when the path does not exist,
`BadFile` when `fs::read` fails, otherwise compare the SHA-512 digest of the
bytes with the stored content hash. -/
def Mod.verify_against (m : Mod) (w : World) (file_path : String) : FileVerification :=
  match w.fs file_path with
  | .absent => .NotExists
  | .unreadable => .BadFile
  | .readable bytes =>
    if m.file.hashes.check512 (w.digest bytes) then .Ok else .BadHash

/-- Free function `verify_file`: same four-way check for a bare file record,
at destination `out_dir/filename`. -/
def verify_file (w : World) (mfile : ModrinthFile) (out_dir : String) : FileVerification :=
  match w.fs (pathJoin out_dir mfile.filename) with
  | .absent => .NotExists
  | .unreadable => .BadFile
  | .readable bytes =>
    if mfile.hashes.check512 (w.digest bytes) then .Ok else .BadHash

/-- Result of one `Mod::download` call: the returned `Result`, the filesystem
afterwards, the urls fetched and the paths written. -/
structure DownloadOutcome where
  result : Except DownloadError Unit
  fs : String → FileState
  fetched : List String
  wrote : List String

/-- Method `Mod::download`: verify the local copy first and skip on `Ok`;
otherwise fetch, compare digests and write on a match.  On a digest mismatch
the source CONSTRUCTS `DownloadError::BadHash(...)` but discards the value
(there is no `return Err(..)`), so the function falls through to `Ok(())`:
the embedding reproduces that fall-through faithfully. -/
def Mod.download (m : Mod) (w : World) (out_dir : String) : DownloadOutcome :=
  match m.verify_against w (pathJoin out_dir m.file.filename) with
  | .Ok => ⟨.ok (), w.fs, [], []⟩
  | _ =>
    match w.net m.file.url with
    | none => ⟨.error .BadRequest, w.fs, [m.file.url], []⟩
    | some res =>
      if m.file.hashes.check512 (w.digest res) then
        ⟨.ok (),
         fun p => if p = pathJoin out_dir m.file.filename then .readable res else w.fs p,
         [m.file.url], [pathJoin out_dir m.file.filename]⟩
      else
        ⟨.ok (), w.fs, [m.file.url], []⟩

/-! ## File-selector lemmas -/

theorem findPrimaryIdx_eq_none (l : List ModrinthFile) :
    ∀ k, findPrimaryIdx l k = none ↔ ∀ f ∈ l, f.primary = false := by
  induction l with
  | nil => intro k; simp [findPrimaryIdx]
  | cons f rest ih =>
    intro k
    by_cases hp : f.primary
    · simp [findPrimaryIdx, hp]
    · simp [findPrimaryIdx, hp, ih (k + 1)]

theorem findPrimaryIdx_lt (l : List ModrinthFile) :
    ∀ k i, findPrimaryIdx l k = some i → k ≤ i ∧ i < k + l.length := by
  induction l with
  | nil => intro k i h; simp [findPrimaryIdx] at h
  | cons f rest ih =>
    intro k i h
    by_cases hp : f.primary
    · simp [findPrimaryIdx, hp] at h
      simp [List.length_cons]
      omega
    · simp [findPrimaryIdx, hp] at h
      have := ih (k + 1) i h
      simp [List.length_cons]
      omega

theorem findPrimaryIdx_first (l : List ModrinthFile) :
    ∀ k i f, l[i]? = some f → f.primary = true →
      (l.take i).all (fun g => !g.primary) = true →
      findPrimaryIdx l k = some (k + i) := by
  induction l with
  | nil => intro k i f h _ _; simp at h
  | cons g rest ih =>
    intro k i f hget hp htake
    cases i with
    | zero =>
      have hg : g = f := by simpa using hget
      subst hg
      simp [findPrimaryIdx, hp]
    | succ n =>
      simp [List.take_succ_cons, List.all_cons] at htake
      obtain ⟨hg, hrest⟩ := htake
      have h2 := ih (k + 1) n f (by simpa using hget) hp (by simpa using hrest)
      have h3 : k + 1 + n = k + (n + 1) := by omega
      simp [findPrimaryIdx, hg]
      rw [h2, h3]

theorem search_eq_none_iff (files : List ModrinthFile) :
    search_for_primary_file files = none ↔ files = [] := by
  constructor
  · intro h
    unfold search_for_primary_file at h
    by_cases h0 : files.length = 0
    · exact List.length_eq_zero.mp h0
    · rw [if_neg h0] at h
      cases hf : findPrimaryIdx files 0 <;> rw [hf] at h <;> simp at h
  · intro h; subst h; rfl

theorem search_some_lt (files : List ModrinthFile) (i : Nat) :
    search_for_primary_file files = some i → i < files.length := by
  intro h
  unfold search_for_primary_file at h
  by_cases h0 : files.length = 0
  · rw [if_pos h0] at h; simp at h
  · rw [if_neg h0] at h
    cases hf : findPrimaryIdx files 0 with
    | none => rw [hf] at h; simp at h; omega
    | some j =>
      rw [hf] at h; simp at h
      have := findPrimaryIdx_lt files 0 j hf
      omega

/-- C7: the file selector is deterministic and returns `none` on the empty
list, else the first file (in list order) whose primary flag is set, else the
file at position 0. -/
theorem C7_file_selector (files : List ModrinthFile) :
    (files = [] → search_for_primary_file files = none) ∧
    (∀ i f, files[i]? = some f → f.primary = true →
      (files.take i).all (fun g => !g.primary) = true →
      search_for_primary_file files = some i) ∧
    (files ≠ [] → files.all (fun g => !g.primary) = true →
      search_for_primary_file files = some 0) := by
  refine ⟨fun h => (search_eq_none_iff files).mpr h, ?_, ?_⟩
  · intro i f hget hp htake
    have hne : files.length ≠ 0 := by
      intro h0
      rw [List.length_eq_zero] at h0
      subst h0
      simp at hget
    have hfind := findPrimaryIdx_first files 0 i f hget hp htake
    unfold search_for_primary_file
    rw [if_neg hne, hfind]
    simp
  · intro hne hall
    have hnone : findPrimaryIdx files 0 = none := by
      rw [findPrimaryIdx_eq_none]
      intro f hf
      simpa using List.all_eq_true.mp hall f hf
    have hlen : files.length ≠ 0 := by
      intro h0
      exact hne (List.length_eq_zero.mp h0)
    unfold search_for_primary_file
    rw [if_neg hlen, hnone]

/-- Concrete file marked primary, used by witnesses. -/
def fPrim : ModrinthFile := ⟨"urlP", "p.jar", true, ⟨[1]⟩⟩

/-- Concrete file not marked primary, used by witnesses. -/
def fNon : ModrinthFile := ⟨"urlN", "n.jar", false, ⟨[2]⟩⟩

theorem C7_witness :
    search_for_primary_file [] = none ∧
    search_for_primary_file [fNon, fPrim] = some 1 ∧
    search_for_primary_file [fNon, fNon] = some 0 :=
  ⟨(C7_file_selector []).1 rfl,
   (C7_file_selector [fNon, fPrim]).2.1 1 fPrim (by decide) (by decide) (by decide),
   (C7_file_selector [fNon, fNon]).2.2 (by decide) (by decide)⟩

/-- C10: the selector returns `none` exactly on the empty list and otherwise
an index strictly below the list's length, so the unguarded indexing of the
file list in `Mod::build` and `file_from_ver` is always in bounds. -/
theorem C10_selected_index_in_bounds :
    (∀ files : List ModrinthFile,
      (search_for_primary_file files = none ↔ files = []) ∧
      (∀ i, search_for_primary_file files = some i → i < files.length)) ∧
    (∀ v : Version, file_from_ver v = none ↔ v.files = []) := by
  constructor
  · intro files
    exact ⟨search_eq_none_iff files, fun i h => search_some_lt files i h⟩
  · intro v
    cases hf : search_for_primary_file v.files with
    | none =>
      simp [file_from_ver, hf]
      exact (search_eq_none_iff v.files).mp hf
    | some idx =>
      simp [file_from_ver, hf]
      intro h
      have := (search_eq_none_iff v.files).mpr h
      rw [this] at hf
      exact Option.noConfusion hf

theorem C10_witness : 0 < ([fPrim] : List ModrinthFile).length :=
  (C10_selected_index_in_bounds.1 [fPrim]).2 0 rfl

/-! ## Verifier and downloader theorems -/

/-- C8: verification is a total four-way case split on the destination path:
`NotExists` iff no file exists there, `BadFile` iff it exists but is
unreadable, `Ok` iff its bytes are readable with matching SHA-512 digest,
`BadHash` iff readable with differing digest. -/
theorem C8_verification_four_way (w : World) (mfile : ModrinthFile) (out_dir : String) :
    (verify_file w mfile out_dir = .NotExists ↔
      w.fs (pathJoin out_dir mfile.filename) = .absent) ∧
    (verify_file w mfile out_dir = .BadFile ↔
      w.fs (pathJoin out_dir mfile.filename) = .unreadable) ∧
    (verify_file w mfile out_dir = .Ok ↔
      ∃ bytes, w.fs (pathJoin out_dir mfile.filename) = .readable bytes ∧
        mfile.hashes.check512 (w.digest bytes) = true) ∧
    (verify_file w mfile out_dir = .BadHash ↔
      ∃ bytes, w.fs (pathJoin out_dir mfile.filename) = .readable bytes ∧
        mfile.hashes.check512 (w.digest bytes) = false) := by
  unfold verify_file
  cases hfs : w.fs (pathJoin out_dir mfile.filename) with
  | absent => simp
  | unreadable => simp
  | readable bytes =>
    by_cases hc : mfile.hashes.check512 (w.digest bytes) = true
    · simp [hc]
    · have hc2 : mfile.hashes.check512 (w.digest bytes) = false := by
        simpa using hc
      simp [hc2]

/-- C5: a destination that verifies `Ok` short-circuits the downloader:
success is reported, no url is fetched, no path is written, the filesystem
is untouched, and a second run over the resulting filesystem again fetches
nothing. -/
theorem C5_download_skips_verified (w : World) (m : Mod) (out_dir : String)
    (h : m.verify_against w (pathJoin out_dir m.file.filename) = .Ok) :
    (m.download w out_dir).result = .ok () ∧
    (m.download w out_dir).fs = w.fs ∧
    (m.download w out_dir).fetched = [] ∧
    (m.download w out_dir).wrote = [] ∧
    (m.download ⟨(m.download w out_dir).fs, w.net, w.digest⟩ out_dir).fetched = [] := by
  have hd : m.download w out_dir = ⟨.ok (), w.fs, [], []⟩ := by
    unfold Mod.download
    rw [h]
  rw [hd]
  refine ⟨rfl, rfl, rfl, rfl, ?_⟩
  have hw : (⟨w.fs, w.net, w.digest⟩ : World) = w := rfl
  show (m.download ⟨w.fs, w.net, w.digest⟩ out_dir).fetched = []
  rw [hw, hd]

/-- Concrete entry whose local copy verifies `Ok` under `wOk`. -/
def mOkM : Mod := ⟨"t", "p", "v", "vid", ⟨"urlOK", "f.jar", true, ⟨[9]⟩⟩, []⟩

/-- Concrete world where every path holds bytes digesting to `[9]`. -/
def wOk : World := ⟨fun _ => .readable [1, 2], fun _ => none, fun _ => [9]⟩

theorem C5_witness : (mOkM.download wOk "out").fetched = [] :=
  (C5_download_skips_verified wOk mOkM "out" rfl).2.2.1

/-- C9: when the digest of the fetched bytes differs from the content hash,
the downloader writes nothing — the filesystem after the call is exactly the
filesystem before it. -/
theorem C9_mismatch_preserves_fs (w : World) (m : Mod) (out_dir : String) (bytes : List Nat)
    (hfetch : w.net m.file.url = some bytes)
    (hmiss : m.file.hashes.check512 (w.digest bytes) = false) :
    (m.download w out_dir).fs = w.fs ∧ (m.download w out_dir).wrote = [] := by
  cases hv : m.verify_against w (pathJoin out_dir m.file.filename) <;>
    simp [Mod.download, hv, hfetch, hmiss]

/-- Concrete entry whose content hash `[7]` matches no fetched bytes. -/
def mBad : Mod := ⟨"tb", "pb", "vb", "vidb", ⟨"urlB", "b.jar", true, ⟨[7]⟩⟩, []⟩

/-- Concrete world: nothing on disk, the network returns bytes `[5]`, the
digest function is the identity. -/
def wBad : World := ⟨fun _ => .absent, fun _ => some [5], fun b => b⟩

theorem C9_witness : (mBad.download wBad "o").wrote = [] :=
  (C9_mismatch_preserves_fs wBad mBad "o" [5] rfl rfl).2

/-- C1 (code-bug evidence): at a concrete entry whose local copy verifies
`NotExists` and whose fetched bytes digest differently from the content hash,
`Mod::download` fetches the url yet still returns success — the source
constructs `DownloadError::BadHash` on this path but never returns it. -/
theorem C1_bad_hash_swallowed :
    mBad.verify_against wBad (pathJoin "o" mBad.file.filename) = .NotExists ∧
    wBad.net mBad.file.url = some [5] ∧
    mBad.file.hashes.check512 (wBad.digest [5]) = false ∧
    (mBad.download wBad "o").result = .ok () ∧
    (mBad.download wBad "o").fetched = [mBad.file.url] :=
  ⟨rfl, rfl, rfl, rfl, rfl⟩

/-- C6: a dependency record with both ids absent resolves to the
`NoDependency` error; an error result contributes no entry to the pass and
every sibling result in the same pass is still processed (the pass is
literally the pass with the error removed). -/
theorem C6_unresolved_dependency_isolated :
    (∀ (reg : Registry) (d : RequiredDependency),
      d.version_id = none → d.project_id = none →
      d.resolve_to_version reg =
        .error (ModError.NoDependency "Could not resolve dependency")) ∧
    (∀ (reg : Registry) (mods : List Mod)
      (xs ys : List (Except ModError Version)) (e : ModError),
      passPush reg mods (xs ++ .error e :: ys) = passPush reg mods (xs ++ ys)) := by
  constructor
  · intro reg d h1 h2
    unfold RequiredDependency.resolve_to_version
    rw [h1, h2]
  · intro reg mods xs ys e
    induction xs generalizing mods with
    | nil => simp [passPush]
    | cons vr rest ih =>
      cases vr with
      | error e2 =>
        simp only [List.cons_append, passPush]
        exact ih mods
      | ok ver =>
        by_cases hany : mods.any (fun m => m.project_id == ver.project_id) = true
        · simp [passPush, hany, ih]
        · cases hb : Mod.build_from_version reg ver with
          | ok m => simp [passPush, hany, hb, ih]
          | error e3 => simp [passPush, hany, hb, ih]

/-- Registry answering every request with a transport failure. -/
def reg0 : Registry := ⟨fun _ => none, fun _ => none, fun _ => none⟩

/-- Dependency record with both ids absent. -/
def dNone : RequiredDependency := ⟨none, none⟩

theorem C6_witness :
    dNone.resolve_to_version reg0 =
      .error (ModError.NoDependency "Could not resolve dependency") ∧
    passPush reg0 [] ([] ++ .error ModError.BadRequest :: []) = passPush reg0 [] ([] ++ []) :=
  ⟨C6_unresolved_dependency_isolated.1 reg0 dNone rfl rfl,
   C6_unresolved_dependency_isolated.2 reg0 [] [] [] ModError.BadRequest⟩

/-! ## Dependency-resolver lemmas -/

theorem build_from_version_pid (reg : Registry) (hcoh : reg.Coherent) (ver : Version) (m : Mod)
    (h : Mod.build_from_version reg ver = .ok m) : m.project_id = ver.project_id := by
  unfold Mod.build_from_version at h
  cases hp : reg.getProject ver.project_id with
  | none => rw [hp] at h; simp at h
  | some proj =>
    rw [hp] at h
    cases hs : search_for_primary_file ver.files with
    | none => rw [hs] at h; simp at h
    | some idx =>
      rw [hs] at h
      simp at h
      subst h
      exact hcoh _ _ hp

theorem any_pid_iff (mods : List Mod) (p : String) :
    mods.any (fun m => m.project_id == p) = true ↔ p ∈ pids mods := by
  unfold pids
  constructor
  · intro h
    rcases List.any_eq_true.mp h with ⟨m, hm, hpm⟩
    have h2 : m.project_id = p := by simpa using hpm
    rw [← h2]
    exact List.mem_map_of_mem _ hm
  · intro h
    rcases List.mem_map.mp h with ⟨m, hm, hpm⟩
    exact List.any_eq_true.mpr ⟨m, hm, by simp [hpm]⟩

theorem passPush_eq_append (reg : Registry) (vers : List (Except ModError Version)) :
    ∀ mods, ∃ added, (passPush reg mods vers).1 = mods ++ added := by
  induction vers with
  | nil => intro mods; exact ⟨[], by simp [passPush]⟩
  | cons vr rest ih =>
    intro mods
    cases vr with
    | error e => simpa [passPush] using ih mods
    | ok ver =>
      by_cases hany : mods.any (fun m => m.project_id == ver.project_id) = true
      · simpa [passPush, hany] using ih mods
      · cases hb : Mod.build_from_version reg ver with
        | ok m =>
          obtain ⟨a2, h2⟩ := ih (mods ++ [m])
          exact ⟨m :: a2, by simp [passPush, hany, hb, h2]⟩
        | error e3 => simpa [passPush, hany, hb] using ih mods

theorem passPush_subset (reg : Registry) (vers : List (Except ModError Version))
    (mods : List Mod) : ∀ m ∈ mods, m ∈ (passPush reg mods vers).1 := by
  obtain ⟨added, h⟩ := passPush_eq_append reg vers mods
  intro m hm
  rw [h]
  exact List.mem_append_left _ hm

theorem passPush_pids_mono (reg : Registry) (vers : List (Except ModError Version))
    (mods : List Mod) : pids mods ⊆ pids (passPush reg mods vers).1 := by
  obtain ⟨added, h⟩ := passPush_eq_append reg vers mods
  rw [h]
  intro p hp
  unfold pids at hp ⊢
  rw [List.map_append]
  exact List.mem_append_left _ hp

theorem passPush_snd_zero (reg : Registry) (vers : List (Except ModError Version)) :
    ∀ mods, (passPush reg mods vers).2 = 0 → (passPush reg mods vers).1 = mods := by
  induction vers with
  | nil => intro mods _; simp [passPush]
  | cons vr rest ih =>
    intro mods h
    cases vr with
    | error e =>
      simp [passPush] at h ⊢
      exact ih mods h
    | ok ver =>
      by_cases hany : mods.any (fun m => m.project_id == ver.project_id) = true
      · simp [passPush, hany] at h ⊢
        exact ih mods h
      · cases hb : Mod.build_from_version reg ver with
        | ok m => simp [passPush, hany, hb] at h
        | error e3 =>
          simp [passPush, hany, hb] at h ⊢
          exact ih mods h

theorem passPush_nodup (reg : Registry) (hcoh : reg.Coherent)
    (vers : List (Except ModError Version)) :
    ∀ mods, (pids mods).Nodup → (pids (passPush reg mods vers).1).Nodup := by
  induction vers with
  | nil => intro mods h; simpa [passPush] using h
  | cons vr rest ih =>
    intro mods hnd
    cases vr with
    | error e => simpa [passPush] using ih mods hnd
    | ok ver =>
      by_cases hany : mods.any (fun m => m.project_id == ver.project_id) = true
      · simpa [passPush, hany] using ih mods hnd
      · cases hb : Mod.build_from_version reg ver with
        | ok m =>
          have hpid : m.project_id = ver.project_id := build_from_version_pid reg hcoh ver m hb
          have hnotin : ver.project_id ∉ pids mods := by
            intro hin
            exact hany ((any_pid_iff mods ver.project_id).mpr hin)
          have hnd2 : (pids (mods ++ [m])).Nodup := by
            have hsplit : pids (mods ++ [m]) = pids mods ++ [m.project_id] := by
              simp [pids]
            rw [hsplit, List.nodup_append]
            refine ⟨hnd, List.nodup_singleton _, ?_⟩
            intro a ha hb2
            have ha2 : a = m.project_id := by simpa using hb2
            subst ha2
            rw [hpid] at ha
            exact hnotin ha
          simpa [passPush, hany, hb] using ih (mods ++ [m]) hnd2
        | error e3 => simpa [passPush, hany, hb] using ih mods hnd

theorem passPush_zero_closed (reg : Registry) (vers : List (Except ModError Version)) :
    ∀ mods, (passPush reg mods vers).2 = 0 →
      ∀ v : Version, (Except.ok v : Except ModError Version) ∈ vers →
        v.project_id ∈ pids mods ∨ ∀ m, Mod.build_from_version reg v ≠ .ok m := by
  induction vers with
  | nil => intro mods _ v hv; simp at hv
  | cons vr rest ih =>
    intro mods h0 v hv
    cases vr with
    | error e =>
      simp [passPush] at h0
      rcases List.mem_cons.mp hv with heq | hmem
      · simp at heq
      · exact ih mods h0 v hmem
    | ok ver =>
      by_cases hany : mods.any (fun m => m.project_id == ver.project_id) = true
      · simp [passPush, hany] at h0
        rcases List.mem_cons.mp hv with heq | hmem
        · have hvv : v = ver := by
            injection heq
          subst hvv
          exact Or.inl ((any_pid_iff mods v.project_id).mp hany)
        · exact ih mods h0 v hmem
      · cases hb : Mod.build_from_version reg ver with
        | ok m => simp [passPush, hany, hb] at h0
        | error e3 =>
          simp [passPush, hany, hb] at h0
          rcases List.mem_cons.mp hv with heq | hmem
          · have hvv : v = ver := by
              injection heq
            subst hvv
            refine Or.inr fun m hm => ?_
            rw [hb] at hm
            exact Except.noConfusion hm
          · exact ih mods h0 v hmem

/-- Reachability from an initial resolved list via required-dependency edges
whose resolution succeeds: follow a dependency of a reached mod to a version
and materialize it with `Mod::build_from_version`. -/
inductive Reaches (reg : Registry) (initial : List Mod) : Mod → Prop where
  | base {m : Mod} : m ∈ initial → Reaches reg initial m
  | step {m m2 : Mod} {d : RequiredDependency} {v : Version} :
      Reaches reg initial m → d ∈ m.dependencies →
      d.resolve_to_version reg = .ok v →
      Mod.build_from_version reg v = .ok m2 →
      Reaches reg initial m2

theorem passPush_reaches (reg : Registry) (init : List Mod)
    (vers : List (Except ModError Version)) :
    ∀ mods, (∀ m ∈ mods, Reaches reg init m) →
      (∀ v : Version, (Except.ok v : Except ModError Version) ∈ vers →
        ∃ m0 d, Reaches reg init m0 ∧ d ∈ m0.dependencies ∧
          d.resolve_to_version reg = .ok v) →
      ∀ m ∈ (passPush reg mods vers).1, Reaches reg init m := by
  induction vers with
  | nil =>
    intro mods hmods _ m hm
    exact hmods m (by simpa [passPush] using hm)
  | cons vr rest ih =>
    intro mods hmods hvers
    cases vr with
    | error e =>
      intro m hm
      simp [passPush] at hm
      exact ih mods hmods (fun v hv => hvers v (List.mem_cons_of_mem _ hv)) m hm
    | ok ver =>
      by_cases hany : mods.any (fun m => m.project_id == ver.project_id) = true
      · intro m hm
        simp [passPush, hany] at hm
        exact ih mods hmods (fun v hv => hvers v (List.mem_cons_of_mem _ hv)) m hm
      · cases hb : Mod.build_from_version reg ver with
        | ok mNew =>
          intro m hm
          simp [passPush, hany, hb] at hm
          refine ih (mods ++ [mNew]) ?_
            (fun v hv => hvers v (List.mem_cons_of_mem _ hv)) m hm
          intro m2 hm2
          rcases List.mem_append.mp hm2 with h | h
          · exact hmods m2 h
          · have hm2e : m2 = mNew := by simpa using h
            subst hm2e
            obtain ⟨m0, d, hr, hd, hres⟩ := hvers ver (List.mem_cons_self _ _)
            exact Reaches.step hr hd hres hb
        | error e3 =>
          intro m hm
          simp [passPush, hany, hb] at hm
          exact ih mods hmods (fun v hv => hvers v (List.mem_cons_of_mem _ hv)) m hm

theorem passPush_new_pid (reg : Registry) (hcoh : reg.Coherent) (P : List String)
    (vers : List (Except ModError Version)) :
    ∀ mods,
      (∀ v : Version, (Except.ok v : Except ModError Version) ∈ vers →
        v.project_id ∈ P) →
      (passPush reg mods vers).2 ≠ 0 →
      ∃ p, p ∈ P ∧ p ∉ pids mods ∧ p ∈ pids (passPush reg mods vers).1 := by
  induction vers with
  | nil => intro mods _ h; simp [passPush] at h
  | cons vr rest ih =>
    intro mods hvers h
    cases vr with
    | error e =>
      simp [passPush] at h ⊢
      exact ih mods (fun v hv => hvers v (List.mem_cons_of_mem _ hv)) h
    | ok ver =>
      by_cases hany : mods.any (fun m => m.project_id == ver.project_id) = true
      · simp [passPush, hany] at h ⊢
        exact ih mods (fun v hv => hvers v (List.mem_cons_of_mem _ hv)) h
      · cases hb : Mod.build_from_version reg ver with
        | ok m =>
          refine ⟨ver.project_id, hvers ver (List.mem_cons_self _ _), ?_, ?_⟩
          · intro hin
            exact hany ((any_pid_iff mods ver.project_id).mpr hin)
          · have hmem : m ∈ (passPush reg (mods ++ [m]) rest).1 :=
              passPush_subset reg rest (mods ++ [m]) m
                (List.mem_append_right _ (List.mem_singleton_self _))
            have hpid := build_from_version_pid reg hcoh ver m hb
            simp [passPush, hany, hb]
            rw [← hpid]
            unfold pids
            exact List.mem_map_of_mem _ hmem
        | error e3 =>
          simp [passPush, hany, hb] at h ⊢
          exact ih mods (fun v hv => hvers v (List.mem_cons_of_mem _ hv)) h

/-! ## Counting lemmas for termination -/

theorem length_filter_imp_le {α : Type} (P : List α) (p q : α → Bool)
    (himp : ∀ a, q a = true → p a = true) :
    (P.filter q).length ≤ (P.filter p).length := by
  induction P with
  | nil => simp
  | cons a rest ih =>
    by_cases hq : q a = true
    · have hp := himp a hq
      simp [List.filter_cons, hq, hp]
      omega
    · have hq2 : q a = false := Bool.eq_false_iff.mpr hq
      by_cases hp : p a = true
      · simp [List.filter_cons, hq2, hp]
        omega
      · have hp2 : p a = false := Bool.eq_false_iff.mpr hp
        simp [List.filter_cons, hq2, hp2]
        omega

theorem length_filter_strict {α : Type} (P : List α) (p q : α → Bool)
    (himp : ∀ a, q a = true → p a = true)
    (a0 : α) (ha0 : a0 ∈ P) (hp0 : p a0 = true) (hq0 : q a0 = false) :
    (P.filter q).length < (P.filter p).length := by
  induction P with
  | nil => simp at ha0
  | cons a rest ih =>
    rcases List.mem_cons.mp ha0 with heq | hmem
    · subst heq
      simp [List.filter_cons, hp0, hq0]
      have := length_filter_imp_le rest p q himp
      omega
    · by_cases hqa : q a = true
      · have hpa := himp a hqa
        simp [List.filter_cons, hqa, hpa]
        have := ih hmem
        omega
      · have hq2 : q a = false := Bool.eq_false_iff.mpr hqa
        by_cases hpa : p a = true
        · simp [List.filter_cons, hq2, hpa]
          have := ih hmem
          omega
        · have hp2 : p a = false := Bool.eq_false_iff.mpr hpa
          simp [List.filter_cons, hq2, hp2]
          exact ih hmem

theorem resolve_pid_in (reg : Registry) (P : List String) (hP : reg.ProjectsIn P)
    (d : RequiredDependency) (v : Version) (h : d.resolve_to_version reg = .ok v) :
    v.project_id ∈ P := by
  cases hv : d.version_id with
  | some vid =>
    have h2 : (match reg.getVersionById vid with
        | some ver => (Except.ok ver : Except ModError Version)
        | none => Except.error ModError.BadRequest) = Except.ok v := by
      rw [← h]
      unfold RequiredDependency.resolve_to_version
      rw [hv]
    cases hg : reg.getVersionById vid with
    | some ver =>
      rw [hg] at h2
      simp at h2
      subst h2
      exact hP.1 vid ver hg
    | none => rw [hg] at h2; simp at h2
  | none =>
    cases hp : d.project_id with
    | some pid =>
      have h2 : getTopVersion reg pid = Except.ok v := by
        rw [← h]
        unfold RequiredDependency.resolve_to_version
        rw [hv, hp]
      cases hg : reg.getVersions pid with
      | none =>
        have h3 : (Except.error ModError.BadRequest : Except ModError Version) =
            Except.ok v := by
          rw [← h2]
          unfold getTopVersion
          rw [hg]
        simp at h3
      | some vs =>
        have h3 : (match vs.head? with
            | some v0 => (Except.ok v0 : Except ModError Version)
            | none =>
              Except.error (ModError.NoVersion ("No version found for id " ++ pid))) =
            Except.ok v := by
          rw [← h2]
          unfold getTopVersion
          rw [hg]
        cases hh : vs.head? with
        | some v0 =>
          rw [hh] at h3
          simp at h3
          subst h3
          exact hP.2 pid vs hg v0 (List.mem_of_mem_head? (Option.mem_def.mpr hh))
        | none => rw [hh] at h3; simp at h3
    | none =>
      have h2 : (Except.error (ModError.NoDependency "Could not resolve dependency") :
          Except ModError Version) = Except.ok v := by
        rw [← h]
        unfold RequiredDependency.resolve_to_version
        rw [hv, hp]
      simp at h2

/-! ## Per-pass corollaries at the `onePass` level -/

theorem onePass_subset (reg : Registry) (mods : List Mod) :
    ∀ m ∈ mods, m ∈ (onePass reg mods).1 := by
  unfold onePass
  exact passPush_subset reg _ mods

theorem onePass_pids_mono (reg : Registry) (mods : List Mod) :
    pids mods ⊆ pids (onePass reg mods).1 := by
  unfold onePass
  exact passPush_pids_mono reg _ mods

theorem onePass_snd_zero (reg : Registry) (mods : List Mod)
    (h : (onePass reg mods).2 = 0) : (onePass reg mods).1 = mods := by
  unfold onePass at h ⊢
  exact passPush_snd_zero reg _ mods h

theorem onePass_nodup (reg : Registry) (hcoh : reg.Coherent) (mods : List Mod)
    (h : (pids mods).Nodup) : (pids (onePass reg mods).1).Nodup := by
  unfold onePass
  exact passPush_nodup reg hcoh _ mods h

theorem onePass_zero_closed (reg : Registry) (mods : List Mod)
    (h0 : (onePass reg mods).2 = 0) (m : Mod) (hm : m ∈ mods)
    (d : RequiredDependency) (hd : d ∈ m.dependencies) (v : Version)
    (hv : d.resolve_to_version reg = .ok v) :
    v.project_id ∈ pids mods ∨ ∀ m2, Mod.build_from_version reg v ≠ .ok m2 := by
  have hmem : (Except.ok v : Except ModError Version) ∈
      (depsToSearch mods).map (fun d2 => d2.resolve_to_version reg) := by
    refine List.mem_map.mpr ⟨d, ?_, hv⟩
    unfold depsToSearch
    exact List.mem_flatMap.mpr ⟨m, hm, hd⟩
  unfold onePass at h0
  exact passPush_zero_closed reg _ mods h0 v hmem

theorem onePass_new_pid (reg : Registry) (hcoh : reg.Coherent) (P : List String)
    (hP : reg.ProjectsIn P) (mods : List Mod) (h : (onePass reg mods).2 ≠ 0) :
    ∃ p, p ∈ P ∧ p ∉ pids mods ∧ p ∈ pids (onePass reg mods).1 := by
  unfold onePass at h ⊢
  refine passPush_new_pid reg hcoh P _ mods ?_ h
  intro v hv
  rcases List.mem_map.mp hv with ⟨d, _, hres⟩
  exact resolve_pid_in reg P hP d v hres

theorem onePass_reaches_inv (reg : Registry) (init mods : List Mod)
    (hinv : ∀ m ∈ mods, Reaches reg init m) :
    ∀ m ∈ (onePass reg mods).1, Reaches reg init m := by
  unfold onePass
  refine passPush_reaches reg init _ mods hinv ?_
  intro v hv
  rcases List.mem_map.mp hv with ⟨d, hd, hres⟩
  rcases List.mem_flatMap.mp (by simpa [depsToSearch] using hd) with ⟨m0, hm0, hdm⟩
  exact ⟨m0, d, hinv m0 hm0, hdm, hres⟩

/-! ## Resolver-level theorems -/

theorem resolve_zero (reg : Registry) (mods : List Mod) :
    resolve_dependencies reg 0 mods = none := rfl

theorem resolve_succ_eq (reg : Registry) (fuel : Nat) (mods : List Mod) :
    resolve_dependencies reg (fuel + 1) mods =
      if (onePass reg mods).2 > 0 then resolve_dependencies reg fuel (onePass reg mods).1
      else some (onePass reg mods).1 := rfl

theorem resolve_fixpoint (reg : Registry) : ∀ fuel mods out,
    resolve_dependencies reg fuel mods = some out → onePass reg out = (out, 0) := by
  intro fuel
  induction fuel with
  | zero =>
    intro mods out h
    rw [resolve_zero] at h
    exact Option.noConfusion h
  | succ fuel ih =>
    intro mods out h
    rw [resolve_succ_eq] at h
    by_cases hn : (onePass reg mods).2 > 0
    · rw [if_pos hn] at h
      exact ih _ out h
    · rw [if_neg hn] at h
      have h0 : (onePass reg mods).2 = 0 := by omega
      have h1 := onePass_snd_zero reg mods h0
      have hout : (onePass reg mods).1 = out := Option.some.inj h
      have hom : out = mods := by rw [← hout, h1]
      subst hom
      rw [Prod.ext_iff]
      exact ⟨h1, h0⟩

theorem resolve_subset (reg : Registry) : ∀ fuel mods out,
    resolve_dependencies reg fuel mods = some out → ∀ m ∈ mods, m ∈ out := by
  intro fuel
  induction fuel with
  | zero =>
    intro mods out h
    rw [resolve_zero] at h
    exact Option.noConfusion h
  | succ fuel ih =>
    intro mods out h m hm
    rw [resolve_succ_eq] at h
    by_cases hn : (onePass reg mods).2 > 0
    · rw [if_pos hn] at h
      exact ih _ out h m (onePass_subset reg mods m hm)
    · rw [if_neg hn] at h
      have hout := Option.some.inj h
      rw [← hout]
      exact onePass_subset reg mods m hm

theorem resolve_nodup (reg : Registry) (hcoh : reg.Coherent) : ∀ fuel mods out,
    (pids mods).Nodup → resolve_dependencies reg fuel mods = some out →
    (pids out).Nodup := by
  intro fuel
  induction fuel with
  | zero =>
    intro mods out _ h
    rw [resolve_zero] at h
    exact Option.noConfusion h
  | succ fuel ih =>
    intro mods out hnd h
    rw [resolve_succ_eq] at h
    by_cases hn : (onePass reg mods).2 > 0
    · rw [if_pos hn] at h
      exact ih _ out (onePass_nodup reg hcoh mods hnd) h
    · rw [if_neg hn] at h
      have hout := Option.some.inj h
      rw [← hout]
      exact onePass_nodup reg hcoh mods hnd

theorem resolve_reaches (reg : Registry) (init : List Mod) : ∀ fuel mods out,
    (∀ m ∈ mods, Reaches reg init m) →
    resolve_dependencies reg fuel mods = some out →
    ∀ m ∈ out, Reaches reg init m := by
  intro fuel
  induction fuel with
  | zero =>
    intro mods out _ h
    rw [resolve_zero] at h
    exact Option.noConfusion h
  | succ fuel ih =>
    intro mods out hinv h
    rw [resolve_succ_eq] at h
    by_cases hn : (onePass reg mods).2 > 0
    · rw [if_pos hn] at h
      exact ih _ out (onePass_reaches_inv reg init mods hinv) h
    · rw [if_neg hn] at h
      have hout := Option.some.inj h
      intro m hm
      rw [← hout] at hm
      exact onePass_reaches_inv reg init mods hinv m hm

theorem resolve_total (reg : Registry) (hcoh : reg.Coherent) (P : List String)
    (hP : reg.ProjectsIn P) : ∀ fuel mods,
    (P.filter (fun a => decide (a ∉ pids mods))).length < fuel →
    ∃ out, resolve_dependencies reg fuel mods = some out := by
  intro fuel
  induction fuel with
  | zero => intro mods h; omega
  | succ fuel ih =>
    intro mods hlt
    by_cases hn : (onePass reg mods).2 > 0
    · obtain ⟨p0, hp0P, hp0old, hp0new⟩ := onePass_new_pid reg hcoh P hP mods (by omega)
      have hmono := onePass_pids_mono reg mods
      have hstrict : (P.filter (fun a => decide (a ∉ pids (onePass reg mods).1))).length <
          (P.filter (fun a => decide (a ∉ pids mods))).length := by
        refine length_filter_strict P _ _ ?_ p0 hp0P ?_ ?_
        · intro a ha
          rw [decide_eq_true_eq] at ha ⊢
          exact fun hmem => ha (hmono hmem)
        · rw [decide_eq_true_eq]
          exact hp0old
        · exact decide_eq_false_iff_not.mpr fun hc => hc hp0new
      obtain ⟨out, hout⟩ := ih (onePass reg mods).1 (by omega)
      refine ⟨out, ?_⟩
      rw [resolve_succ_eq, if_pos hn]
      exact hout
    · refine ⟨(onePass reg mods).1, ?_⟩
      rw [resolve_succ_eq, if_neg hn]

/-! ## Claims about the resolver -/

/-- Concrete mod with projectId `A` and no dependencies. -/
def mA : Mod := ⟨"A", "A", "1.0", "va", fNon, []⟩

theorem reg0_coherent : reg0.Coherent := by
  intro p proj h
  simp [reg0] at h

theorem reg0_projects : reg0.ProjectsIn [] := by
  constructor
  · intro vid v h; simp [reg0] at h
  · intro pid vs h; simp [reg0] at h

/-- Registry whose project lookup echoes the queried id and whose version
lookups always fail. -/
def regCoh : Registry := ⟨fun p => some ⟨p, p, p⟩, fun _ => none, fun _ => none⟩

theorem regCoh_coherent : regCoh.Coherent := by
  intro p proj h
  simp [regCoh] at h
  subst h
  rfl

/-- C2 counterexample: `resolve_dependencies` never deduplicates the initial
list, so an initial list repeating projectId `A` reaches the fixed point with
`A` occurring twice — the claim fails for arbitrary initial mod lists. -/
theorem C2_counterexample :
    resolve_dependencies reg0 1 [mA, mA] = some [mA, mA] ∧
    ¬ (pids [mA, mA]).Nodup := by
  constructor
  · rfl
  · decide

/-- C2 (amended): for an id-coherent registry and an initial list whose
projectIds are pairwise distinct, the list returned by `resolve_dependencies`
has pairwise-distinct projectIds: a new entry is materialized only when its
projectId is absent, so the first materialization wins and later duplicates
are dropped. -/
theorem C2_resolved_set_unique (reg : Registry) (hcoh : reg.Coherent)
    (fuel : Nat) (mods out : List Mod) (hnd : (pids mods).Nodup)
    (hres : resolve_dependencies reg fuel mods = some out) :
    (pids out).Nodup :=
  resolve_nodup reg hcoh fuel mods out hnd hres

theorem C2_witness : (pids [mA]).Nodup :=
  C2_resolved_set_unique regCoh regCoh_coherent 1 [mA] [mA] (by decide) rfl

/-- C4: for an id-coherent registry drawing every version from a finite
project list `P`, `resolve_dependencies` reaches its fixed point: each
non-terminal pass adds at least one projectId of `P` not previously present,
so fuel `P.length + 1` always returns `some`. -/
theorem C4_resolution_terminates (reg : Registry) (P : List String)
    (hcoh : reg.Coherent) (hP : reg.ProjectsIn P) (mods : List Mod) :
    ∃ out, resolve_dependencies reg (P.length + 1) mods = some out := by
  refine resolve_total reg hcoh P hP (P.length + 1) mods ?_
  have := List.length_filter_le (fun a => decide (a ∉ pids mods)) P
  omega

theorem C4_witness :
    ∃ out, resolve_dependencies reg0 (List.length ([] : List String) + 1) [mA] = some out :=
  C4_resolution_terminates reg0 [] reg0_coherent reg0_projects [mA]

/-! ## C3: fixed point closure, minimality, and its counterexample -/

/-- Dependency on version `vb1` (of project `B`). -/
def depB : RequiredDependency := ⟨some "vb1", none⟩

/-- Dependency on project `C`. -/
def depC : RequiredDependency := ⟨none, some "C"⟩

/-- Version `vb1` of project `B`; it requires project `C`. -/
def verB1 : Version := ⟨"vb1", "B", "b1", "1.0", [fNon], [depC]⟩

/-- The only version of project `C`. -/
def verC : Version := ⟨"vc", "C", "c1", "1.0", [fNon], []⟩

/-- Initial mod `A`, whose dependency edge targets version `vb1` of `B`. -/
def modA : Mod := ⟨"A", "A", "a1", "va1", fNon, [depB]⟩

/-- Initial mod for project `B` materialized from a different version `vb2`
with no dependencies. -/
def modB2 : Mod := ⟨"B", "B", "b2", "vb2", fNon, []⟩

/-- The mod project `C` would materialize to. -/
def modC : Mod := Mod.build ⟨"C", "C", "C"⟩ verC 0

/-- Registry for the C3 counterexample. -/
def regCE : Registry :=
  ⟨fun p => some ⟨p, p, p⟩,
   fun pid => if pid = "C" then some [verC] else none,
   fun vid => if vid = "vb1" then some verB1 else none⟩

/-- C3 counterexample.  First half: projectId `C` is reachable from the
initial set (through version `vb1` of `B`, which requires `C`), but the fixed
point does not contain `C`, because project `B` was already materialized from
version `vb2` which lacks that edge — first-wins drops the `vb1` edge
unexpanded.  Second half: with a duplicated initial entry, a projectId occurs
twice at the fixed point, refuting "present exactly once". -/
theorem C3_counterexample :
    (Reaches regCE [modA, modB2] modC ∧
     resolve_dependencies regCE 1 [modA, modB2] = some [modA, modB2] ∧
     modC.project_id ∉ pids [modA, modB2]) ∧
    (resolve_dependencies reg0 1 [mA, mA] = some [mA, mA] ∧
     ¬ (pids [mA, mA]).Nodup) := by
  refine ⟨⟨?_, rfl, by decide⟩, rfl, by decide⟩
  have h1 : Reaches regCE [modA, modB2] modA := Reaches.base (by decide)
  have h2 : Reaches regCE [modA, modB2] (Mod.build ⟨"B", "B", "B"⟩ verB1 0) :=
    @Reaches.step regCE [modA, modB2] modA (Mod.build ⟨"B", "B", "B"⟩ verB1 0)
      depB verB1 h1 (by decide) rfl rfl
  exact @Reaches.step regCE [modA, modB2] (Mod.build ⟨"B", "B", "B"⟩ verB1 0) modC
    depC verC h2 (by decide) rfl rfl

/-- C3 (amended): at the fixed point, for an id-coherent registry and
distinct initial projectIds: the initial entries are all present; the set is
closed under the successful dependency edges of its own members (every edge
that resolves to a version from which a mod can be built has its projectId
present); every member is reachable from the initial set via successful
required-dependency edges; and projectIds are pairwise distinct (each present
exactly once).  A projectId reachable only through a version of an
already-materialized project can be absent (first-wins), as the
counterexample shows. -/
theorem C3_fixed_point_closed_minimal (reg : Registry) (hcoh : reg.Coherent)
    (fuel : Nat) (mods out : List Mod) (hnd : (pids mods).Nodup)
    (hres : resolve_dependencies reg fuel mods = some out) :
    (∀ m ∈ mods, m ∈ out) ∧
    (∀ m ∈ out, ∀ d ∈ m.dependencies, ∀ v,
      d.resolve_to_version reg = .ok v →
      ∀ m2, Mod.build_from_version reg v = .ok m2 →
      v.project_id ∈ pids out) ∧
    (∀ m ∈ out, Reaches reg mods m) ∧
    (pids out).Nodup := by
  refine ⟨resolve_subset reg fuel mods out hres, ?_,
    resolve_reaches reg mods fuel mods out (fun m hm => Reaches.base hm) hres,
    resolve_nodup reg hcoh fuel mods out hnd hres⟩
  intro m hm d hd v hv m2 hb
  have hfix := resolve_fixpoint reg fuel mods out hres
  have h0 : (onePass reg out).2 = 0 := by rw [hfix]
  rcases onePass_zero_closed reg out h0 m hm d hd v hv with hin | hnone
  · exact hin
  · exact absurd hb (hnone m2)

theorem C3_witness : mA ∈ ([mA] : List Mod) :=
  (C3_fixed_point_closed_minimal regCoh regCoh_coherent 1 [mA] [mA]
    (by decide) rfl).1 mA (List.mem_singleton_self mA)

end McModGetter
